import Mathlib

/-!
Verification of the financial calculator engine of the slay-the-bear server
(`src/services/calculator.service.ts`).

Modelling conventions:
* JavaScript floating-point values are modelled as exact rationals (`ℚ`)
  wherever the source performs only field arithmetic; computations that use
  `Math.log`, `Math.sqrt`, or a fractional `Math.pow` exponent are modelled
  over `ℝ`.
* `parseFloat(x.toFixed(2))` display rounding at the point of return is not
  modelled; all statements are about the pre-rounding values.
* `throw new Error(msg)` is modelled as `Except.error msg`.
* Loop counters and enumerated inputs (term length in months or years,
  years to maturity, compounding frequency) are modelled as `ℕ` or as a
  dedicated enumeration, following the input contract described in the spec.
-/

deriving instance DecidableEq for Except

namespace SlayTheBear

/-! ### Break-even calculator (`calculateBreakEven`) -/

structure BreakEvenInput where
  fixedCosts : ℚ
  variableCostPerUnit : ℚ
  sellingPricePerUnit : ℚ

structure BreakEvenResult where
  breakEvenUnits : ℤ
  contributionMarginPerUnit : ℚ
  breakEvenRevenue : ℚ
  totalVariableCosts : ℚ
  totalCosts : ℚ
deriving DecidableEq

/-- Transcription of `CalculatorService.calculateBreakEven`: contribution
margin is the selling price minus the variable cost; a non-positive margin
throws; otherwise the break-even unit count is the ceiling of
`fixedCosts / margin`, and revenue and costs are reported at that count. -/
def calculateBreakEven (input : BreakEvenInput) : Except String BreakEvenResult :=
  let contributionMargin := input.sellingPricePerUnit - input.variableCostPerUnit
  if contributionMargin ≤ 0 then
    .error "Selling price must be greater than variable cost per unit"
  else
    let breakEvenUnits := input.fixedCosts / contributionMargin
    let breakEvenUnitsCeil : ℤ := ⌈breakEvenUnits⌉
    let breakEvenRevenue := (breakEvenUnitsCeil : ℚ) * input.sellingPricePerUnit
    let totalVariableCosts := (breakEvenUnitsCeil : ℚ) * input.variableCostPerUnit
    .ok { breakEvenUnits := breakEvenUnitsCeil
          contributionMarginPerUnit := contributionMargin
          breakEvenRevenue := breakEvenRevenue
          totalVariableCosts := totalVariableCosts
          totalCosts := input.fixedCosts + totalVariableCosts }

/-! ### CD calculator (`calculateCD`) -/

inductive CompoundingFrequency where
  | daily
  | monthly
  | quarterly
  | semiannually
  | annually
deriving DecidableEq

/-- The `frequencyMap` of `calculateCD`. -/
def CompoundingFrequency.periodsPerYear : CompoundingFrequency → ℕ
  | .daily => 365
  | .monthly => 12
  | .quarterly => 4
  | .semiannually => 2
  | .annually => 1

structure CDInput where
  principal : ℝ
  annualInterestRate : ℝ
  timePeriod : ℝ
  compoundingFrequency : CompoundingFrequency

/-- Pre-rounding future value computed by `calculateCD`:
`FV = P * (1 + r/n)^(n*t)` with `r = annualInterestRate/100` and `n` the
periods per year of the compounding frequency.  The exponent is a real
number, so `Math.pow` is modelled by `Real.rpow`. -/
noncomputable def cdFutureValue (input : CDInput) : ℝ :=
  let r := input.annualInterestRate / 100
  let n : ℝ := input.compoundingFrequency.periodsPerYear
  input.principal * (1 + r / n) ^ (n * input.timePeriod)

/-! ### Bond price calculator (`calculateBondPrice`) -/

structure BondPriceInput where
  couponPayment : ℚ
  yieldRate : ℚ
  yearsToMaturity : ℕ
  faceValue : ℚ

structure BondPriceResult where
  bondPrice : ℚ
  presentValueOfCoupons : ℚ
  presentValueOfFaceValue : ℚ
deriving DecidableEq

/-- Transcription of `CalculatorService.calculateBondPrice`: sums
`couponPayment / (1+yd)^t` for `t = 1 .. yearsToMaturity`, adds
`faceValue / (1+yd)^yearsToMaturity`, where `yd = yieldRate/100`. -/
def calculateBondPrice (input : BondPriceInput) : BondPriceResult :=
  let yd := input.yieldRate / 100
  let presentValueCoupons :=
    (List.range input.yearsToMaturity).foldl
      (fun acc t => acc + input.couponPayment / (1 + yd) ^ (t + 1)) 0
  let presentValueFaceValue := input.faceValue / (1 + yd) ^ input.yearsToMaturity
  { bondPrice := presentValueCoupons + presentValueFaceValue
    presentValueOfCoupons := presentValueCoupons
    presentValueOfFaceValue := presentValueFaceValue }

/-! ### Mortgage calculator (`calculateMortgage`) -/

inductive TermType where
  | years
  | months
deriving DecidableEq

structure MortgageInput where
  loanAmount : ℚ
  interestRate : ℚ
  loanTerm : ℕ
  paymentType : TermType

/-- The `totalPayments` of `calculateMortgage`: the term is converted to months
when expressed in years. -/
def mortgageTotalPayments (input : MortgageInput) : ℕ :=
  match input.paymentType with
  | .years => input.loanTerm * 12
  | .months => input.loanTerm

/-- Pre-rounding monthly payment computed by `calculateMortgage`: the
zero-rate branch divides the principal evenly, otherwise the annuity
formula `P * r(1+r)^n / ((1+r)^n - 1)` is used. -/
def calculateMortgage (input : MortgageInput) : ℚ :=
  let totalPayments := mortgageTotalPayments input
  let monthlyInterestRate := (input.interestRate / 100) / 12
  if monthlyInterestRate = 0 then
    input.loanAmount / totalPayments
  else
    input.loanAmount * (monthlyInterestRate * (1 + monthlyInterestRate) ^ totalPayments) /
      ((1 + monthlyInterestRate) ^ totalPayments - 1)

/-! ### Theorems: break-even (C5) -/

lemma breakEven_revenue_covers_costs {f m p v : ℚ} (hm : 0 < m) (hpv : m = p - v) :
    f + (⌈f / m⌉ : ℚ) * v ≤ (⌈f / m⌉ : ℚ) * p := by
  have h1 : f / m ≤ (⌈f / m⌉ : ℚ) := Int.le_ceil _
  have h2 : f / m * m ≤ (⌈f / m⌉ : ℚ) * m :=
    mul_le_mul_of_nonneg_right h1 (le_of_lt hm)
  rw [div_mul_cancel₀ _ (ne_of_gt hm)] at h2
  have h3 : (⌈f / m⌉ : ℚ) * m = (⌈f / m⌉ : ℚ) * p - (⌈f / m⌉ : ℚ) * v := by
    rw [hpv]; ring
  linarith [h2, h3.le, h3.ge]

/-- C5: for every input with positive `fixedCosts`, `calculateBreakEven`
fails exactly when `sellingPricePerUnit - variableCostPerUnit ≤ 0`;
otherwise it returns `breakEvenUnits = ⌈fixedCosts / margin⌉` and the
reported revenue at that unit count is at least the reported total cost. -/
theorem calculateBreakEven_spec (input : BreakEvenInput)
    (_hf : 0 < input.fixedCosts) :
    ((∃ e, calculateBreakEven input = .error e) ↔
      input.sellingPricePerUnit - input.variableCostPerUnit ≤ 0) ∧
    (∀ res, calculateBreakEven input = .ok res →
      res.breakEvenUnits =
        ⌈input.fixedCosts / (input.sellingPricePerUnit - input.variableCostPerUnit)⌉ ∧
      res.totalCosts ≤ res.breakEvenRevenue) := by
  by_cases h : input.sellingPricePerUnit - input.variableCostPerUnit ≤ 0
  · refine ⟨⟨fun _ => h,
      fun _ => ⟨"Selling price must be greater than variable cost per unit", ?_⟩⟩,
      fun res hres => ?_⟩
    · simp only [calculateBreakEven, if_pos h]
    · simp only [calculateBreakEven, if_pos h] at hres
      exact Except.noConfusion hres
  · have hm : 0 < input.sellingPricePerUnit - input.variableCostPerUnit :=
      lt_of_not_le h
    constructor
    · constructor
      · rintro ⟨e, he⟩
        simp only [calculateBreakEven, if_neg h] at he
        exact Except.noConfusion he
      · intro hc
        exact absurd hc h
    · intro res hres
      simp only [calculateBreakEven, if_neg h, Except.ok.injEq] at hres
      subst hres
      exact ⟨rfl, breakEven_revenue_covers_costs (f := input.fixedCosts) hm rfl⟩

/-- Witness for C5: the spec scenario `fixedCosts = 1000`, `variableCost = 5`,
`sellingPrice = 15` succeeds with 100 units, and revenue covers total cost. -/
theorem calculateBreakEven_spec_witness :
    (100 : ℤ) = ⌈(1000 : ℚ) / (15 - 5)⌉ ∧
    (⟨100, 10, 1500, 500, 1500⟩ : BreakEvenResult).totalCosts ≤
      (⟨100, 10, 1500, 500, 1500⟩ : BreakEvenResult).breakEvenRevenue :=
  (calculateBreakEven_spec ⟨1000, 5, 15⟩ (by norm_num)).2
    ⟨100, 10, 1500, 500, 1500⟩ (by norm_num [calculateBreakEven])

/-! ### Theorems: CD future value monotonicity (C7) -/

lemma periodsPerYear_pos (f : CompoundingFrequency) : 0 < (f.periodsPerYear : ℝ) := by
  cases f <;> norm_num [CompoundingFrequency.periodsPerYear]

/-- C7: the pre-rounding CD future value `P*(1 + r/n)^(n*t)` is strictly
increasing in the time period (for fixed positive principal and positive
rate) and strictly increasing in the annual interest rate (for fixed
positive principal and positive time period). -/
theorem cdFutureValue_monotone (f : CompoundingFrequency) (P : ℝ) (hP : 0 < P) :
    (∀ rate t₁ t₂ : ℝ, 0 < rate → t₁ < t₂ →
      cdFutureValue ⟨P, rate, t₁, f⟩ < cdFutureValue ⟨P, rate, t₂, f⟩) ∧
    (∀ rate₁ rate₂ t : ℝ, 0 ≤ rate₁ → rate₁ < rate₂ → 0 < t →
      cdFutureValue ⟨P, rate₁, t, f⟩ < cdFutureValue ⟨P, rate₂, t, f⟩) := by
  have hn : 0 < (f.periodsPerYear : ℝ) := periodsPerYear_pos f
  constructor
  · intro rate t₁ t₂ hrate ht
    unfold cdFutureValue
    have hb : 1 < 1 + rate / 100 / (f.periodsPerYear : ℝ) := by
      have hpos : 0 < rate / 100 / (f.periodsPerYear : ℝ) :=
        div_pos (by linarith) hn
      linarith
    have hlt := (Real.rpow_lt_rpow_left_iff hb).mpr
      (mul_lt_mul_of_pos_left ht hn)
    exact mul_lt_mul_of_pos_left hlt hP
  · intro r₁ r₂ t h₁ h₁₂ ht
    unfold cdFutureValue
    have hb₀ : (0 : ℝ) ≤ 1 + r₁ / 100 / (f.periodsPerYear : ℝ) := by
      have : (0 : ℝ) ≤ r₁ / 100 / (f.periodsPerYear : ℝ) :=
        div_nonneg (by linarith) hn.le
      linarith
    have hb : 1 + r₁ / 100 / (f.periodsPerYear : ℝ) <
        1 + r₂ / 100 / (f.periodsPerYear : ℝ) := by
      have h100 : r₁ / 100 < r₂ / 100 := by linarith
      have := mul_lt_mul_of_pos_right h100 (inv_pos.mpr hn)
      rw [div_eq_mul_inv (r₁ / 100), div_eq_mul_inv (r₂ / 100)]
      linarith
    have hexp : 0 < (f.periodsPerYear : ℝ) * t := mul_pos hn ht
    exact mul_lt_mul_of_pos_left (Real.rpow_lt_rpow hb₀ hb hexp) hP

/-- Witness for C7 at a concrete instance: monthly compounding, principal
1000; future value grows from year 1 to year 2, and from rate 3 to rate 5. -/
theorem cdFutureValue_monotone_witness :
    cdFutureValue ⟨1000, 5, 1, .monthly⟩ < cdFutureValue ⟨1000, 5, 2, .monthly⟩ ∧
    cdFutureValue ⟨1000, 3, 1, .monthly⟩ < cdFutureValue ⟨1000, 5, 1, .monthly⟩ :=
  ⟨(cdFutureValue_monotone .monthly 1000 (by norm_num)).1 5 1 2
      (by norm_num) (by norm_num),
   (cdFutureValue_monotone .monthly 1000 (by norm_num)).2 3 5 1
      (by norm_num) (by norm_num) (by norm_num)⟩

/-! ### Theorems: bond price at zero yield (C8) -/

lemma range_foldl_add (g : ℕ → ℚ) (n : ℕ) : ∀ acc : ℚ,
    (List.range n).foldl (fun a t => a + g t) acc =
      acc + ((List.range n).map g).sum := by
  induction n with
  | zero => simp
  | succ k ih =>
    intro acc
    rw [List.range_succ]
    simp [List.foldl_append, ih]
    ring

/-- C8: at `yieldRate = 0` the pre-rounding bond price computed by
`calculateBondPrice` is exactly `couponPayment * yearsToMaturity + faceValue`:
no discounting takes place. -/
theorem calculateBondPrice_zero_yield (c F : ℚ) (n : ℕ) :
    (calculateBondPrice ⟨c, 0, n, F⟩).bondPrice = c * n + F := by
  unfold calculateBondPrice
  simp only [zero_div, add_zero, one_pow, div_one]
  rw [range_foldl_add]
  simp [List.sum_replicate, nsmul_eq_mul]
  ring

/-! ### Theorems: mortgage zero-rate guard (C10) -/

/-- C10: for every input with `interestRate = 0`, `calculateMortgage` takes
the guarded branch and returns `loanAmount / totalPayments`, where
`totalPayments` is `loanTerm * 12` for a term in years and `loanTerm` for a
term in months; the annuity-formula branch (which would divide by zero) is
never taken. -/
theorem calculateMortgage_zero_rate (la : ℚ) (term : ℕ) :
    calculateMortgage ⟨la, 0, term, .years⟩ = la / ((term : ℚ) * 12) ∧
    calculateMortgage ⟨la, 0, term, .months⟩ = la / (term : ℚ) := by
  constructor <;> simp [calculateMortgage, mortgageTotalPayments]

/-! ### Credit payoff calculator (`calculateCreditPayoff`) -/

structure CreditPayoffInput where
  balance : ℚ
  interestRate : ℚ
  monthlyPayment : ℚ

structure CreditPayoffResult where
  monthsToPayoff : ℤ
  totalPaid : ℝ
  totalInterest : ℝ

/-- Transcription of `CalculatorService.calculateCreditPayoff`: the monthly
rate is `interestRate/12/100`; if the payment does not exceed the minimum
interest `balance * monthlyRate` the function throws; otherwise the months
to payoff are the ceiling of
`ln(payment / (payment - balance*monthlyRate)) / ln(1 + monthlyRate)`
(`Math.log` is modelled by `Real.log`). -/
noncomputable def calculateCreditPayoff (input : CreditPayoffInput) :
    Except String CreditPayoffResult :=
  let monthlyInterestRate : ℚ := input.interestRate / 12 / 100
  let minimumPayment := input.balance * monthlyInterestRate
  if input.monthlyPayment ≤ minimumPayment then
    .error "Monthly payment must be greater than the minimum interest payment to pay off the debt"
  else
    let months : ℝ :=
      Real.log ((input.monthlyPayment : ℝ) /
          ((input.monthlyPayment : ℝ) - (input.balance : ℝ) * (monthlyInterestRate : ℝ))) /
        Real.log (1 + (monthlyInterestRate : ℝ))
    let monthsToPayoff : ℤ := ⌈months⌉
    .ok { monthsToPayoff := monthsToPayoff
          totalPaid := (input.monthlyPayment : ℝ) * monthsToPayoff
          totalInterest := (input.monthlyPayment : ℝ) * monthsToPayoff - (input.balance : ℝ) }

/-! ### Theorems: credit payoff failure condition and formula (C4) -/

/-- C4: `calculateCreditPayoff` fails exactly when
`monthlyPayment ≤ balance * (interestRate/12/100)`; when it succeeds, the
returned `monthsToPayoff` is the ceiling of the closed-form
`ln(payment/(payment - balance*r)) / ln(1+r)`; on failure no result is
produced. -/
theorem calculateCreditPayoff_spec (input : CreditPayoffInput) :
    ((∃ e, calculateCreditPayoff input = .error e) ↔
      input.monthlyPayment ≤ input.balance * (input.interestRate / 12 / 100)) ∧
    (∀ res, calculateCreditPayoff input = .ok res →
      res.monthsToPayoff =
        ⌈Real.log ((input.monthlyPayment : ℝ) /
            ((input.monthlyPayment : ℝ) -
              (input.balance : ℝ) * ((input.interestRate / 12 / 100 : ℚ) : ℝ))) /
          Real.log (1 + ((input.interestRate / 12 / 100 : ℚ) : ℝ))⌉) := by
  by_cases h : input.monthlyPayment ≤ input.balance * (input.interestRate / 12 / 100)
  · refine ⟨⟨fun _ => h,
      fun _ =>
        ⟨"Monthly payment must be greater than the minimum interest payment to pay off the debt",
          ?_⟩⟩,
      fun res hres => ?_⟩
    · simp only [calculateCreditPayoff, if_pos h]
    · simp only [calculateCreditPayoff, if_pos h] at hres
      exact Except.noConfusion hres
  · constructor
    · constructor
      · rintro ⟨e, he⟩
        simp only [calculateCreditPayoff, if_neg h] at he
        exact Except.noConfusion he
      · intro hc
        exact absurd hc h
    · intro res hres
      simp only [calculateCreditPayoff, if_neg h, Except.ok.injEq] at hres
      subst hres
      rfl

/-- Witness for C4 at a concrete input: balance 1000 at 12% annual interest
has minimum monthly interest 10, so a payment of exactly 10 fails. -/
theorem calculateCreditPayoff_spec_witness :
    ∃ e, calculateCreditPayoff ⟨1000, 12, 10⟩ = .error e :=
  (calculateCreditPayoff_spec ⟨1000, 12, 10⟩).1.mpr (by norm_num)

/-! ### Loan amortization calculator (`calculateLoanAmortization`) -/

structure LoanAmortizationInput where
  principal : ℚ
  annualInterestRate : ℚ
  loanTerm : ℕ
  extraPayment : ℚ
  loanTermType : TermType

/-- The `totalPayments` of `calculateLoanAmortization`: months, converted from
years when needed. -/
def loanTotalPayments (input : LoanAmortizationInput) : ℕ :=
  match input.loanTermType with
  | .years => input.loanTerm * 12
  | .months => input.loanTerm

/-- The monthly rate `monthlyInterestRate = (annualInterestRate / 100) / 12`. -/
def loanMonthlyRate (input : LoanAmortizationInput) : ℚ :=
  input.annualInterestRate / 100 / 12

/-- The annuity payment `baseMonthlyPayment = P * r / (1 - (1 + r)^(-totalPayments))`. -/
def baseMonthlyPayment (input : LoanAmortizationInput) : ℚ :=
  input.principal * loanMonthlyRate input /
    (1 - (1 + loanMonthlyRate input) ^ (-(loanTotalPayments input : ℤ)))

/-- One schedule row; `balance` stores `Math.max(balance, 0)` as in the
source (pre-rounding). -/
structure AmortRow where
  month : ℕ
  principalPayment : ℚ
  interestPayment : ℚ
  balance : ℚ
deriving DecidableEq

/-- The balance update of one loop iteration:
`balance - (basePayment + extraPayment - balance * rate)`. -/
def amortStep (pay extra r b : ℚ) : ℚ := b - (pay + extra - b * r)

/-- The period loop of `calculateLoanAmortization`: runs for at most `fuel`
periods (the nominal term) and stops right after the first period whose
updated balance is `≤ 0`. -/
def amortSched (pay extra r : ℚ) : ℕ → ℚ → ℕ → List AmortRow
  | 0, _, _ => []
  | fuel + 1, b, m =>
    let interestPayment := b * r
    let principalPayment := pay + extra - interestPayment
    let b' := b - principalPayment
    if b' ≤ 0 then [⟨m, principalPayment, interestPayment, max b' 0⟩]
    else ⟨m, principalPayment, interestPayment, max b' 0⟩ ::
      amortSched pay extra r fuel b' (m + 1)

/-- The raw (unclamped) balance left when the period loop of
`calculateLoanAmortization` exits. -/
def amortFinal (pay extra r : ℚ) : ℕ → ℚ → ℚ
  | 0, b => b
  | fuel + 1, b =>
    let b' := b - (pay + extra - b * r)
    if b' ≤ 0 then b' else amortFinal pay extra r fuel b'

/-- The amortization schedule produced by
`CalculatorService.calculateLoanAmortization` (pre-rounding row values). -/
def calculateLoanAmortization (input : LoanAmortizationInput) : List AmortRow :=
  amortSched (baseMonthlyPayment input) input.extraPayment (loanMonthlyRate input)
    (loanTotalPayments input) input.principal 1

/-- Sum of the `principalPayment` column of a schedule (the source
accumulates the same values into `totalPrincipalPaid`). -/
def sumPrincipalPayments (s : List AmortRow) : ℚ :=
  (s.map AmortRow.principalPayment).sum

lemma amortSched_succ (pay e r b : ℚ) (fuel m : ℕ) :
    amortSched pay e r (fuel + 1) b m =
      if b - (pay + e - b * r) ≤ 0 then
        [⟨m, pay + e - b * r, b * r, max (b - (pay + e - b * r)) 0⟩]
      else ⟨m, pay + e - b * r, b * r, max (b - (pay + e - b * r)) 0⟩ ::
        amortSched pay e r fuel (b - (pay + e - b * r)) (m + 1) := rfl

lemma amortFinal_succ (pay e r b : ℚ) (fuel : ℕ) :
    amortFinal pay e r (fuel + 1) b =
      if b - (pay + e - b * r) ≤ 0 then b - (pay + e - b * r)
      else amortFinal pay e r fuel (b - (pay + e - b * r)) := rfl

lemma amortSched_sum (pay e r : ℚ) :
    ∀ (fuel : ℕ) (b : ℚ) (m : ℕ),
      sumPrincipalPayments (amortSched pay e r fuel b m) =
        b - amortFinal pay e r fuel b
  | 0, b, m => by simp [amortSched, amortFinal, sumPrincipalPayments]
  | fuel + 1, b, m => by
    rw [amortSched_succ, amortFinal_succ]
    by_cases hb : b - (pay + e - b * r) ≤ 0
    · rw [if_pos hb, if_pos hb]
      simp only [sumPrincipalPayments, List.map_cons, List.map_nil,
        List.sum_cons, List.sum_nil]
      ring
    · rw [if_neg hb, if_neg hb]
      have ih := amortSched_sum pay e r fuel (b - (pay + e - b * r)) (m + 1)
      simp only [sumPrincipalPayments, List.map_cons, List.sum_cons] at ih ⊢
      rw [ih]
      ring

lemma amortSched_length (pay e r : ℚ) :
    ∀ (fuel : ℕ) (b : ℚ) (m : ℕ),
      (amortSched pay e r fuel b m).length ≤ fuel
  | 0, b, m => by simp [amortSched]
  | fuel + 1, b, m => by
    rw [amortSched_succ]
    by_cases hb : b - (pay + e - b * r) ≤ 0
    · rw [if_pos hb]
      simp
    · rw [if_neg hb]
      have ih := amortSched_length pay e r fuel (b - (pay + e - b * r)) (m + 1)
      simp only [List.length_cons]
      omega

lemma amortSched_pos (pay e r : ℚ) :
    ∀ (fuel : ℕ) (b : ℚ) (m k : ℕ),
      k + 1 < (amortSched pay e r fuel b m).length →
      0 < (amortStep pay e r)^[k + 1] b
  | 0, b, m, k => by simp [amortSched]
  | fuel + 1, b, m, k => by
    rw [amortSched_succ]
    by_cases hb : b - (pay + e - b * r) ≤ 0
    · rw [if_pos hb]
      simp only [List.length_singleton]
      omega
    · rw [if_neg hb]
      simp only [List.length_cons]
      intro hlen
      cases k with
      | zero =>
        rw [zero_add, Function.iterate_one]
        simpa [amortStep] using lt_of_not_le hb
      | succ j =>
        have ih := amortSched_pos pay e r fuel (b - (pay + e - b * r)) (m + 1) j
          (by omega)
        rw [Function.iterate_succ_apply]
        simpa [amortStep] using ih

lemma amortFinal_cases (pay e r : ℚ) :
    ∀ (fuel : ℕ) (b : ℚ),
      amortFinal pay e r fuel b ≤ 0 ∨
        amortFinal pay e r fuel b = (amortStep pay e r)^[fuel] b
  | 0, b => Or.inr rfl
  | fuel + 1, b => by
    rw [amortFinal_succ]
    by_cases hb : b - (pay + e - b * r) ≤ 0
    · left
      rw [if_pos hb]
      exact hb
    · rw [if_neg hb]
      rcases amortFinal_cases pay e r fuel (b - (pay + e - b * r)) with h | h
      · exact Or.inl h
      · right
        rw [Function.iterate_succ_apply]
        simpa [amortStep] using h

lemma amortFinal_of_pos (pay e r : ℚ) :
    ∀ (fuel : ℕ) (b : ℚ),
      (∀ j, 1 ≤ j → j < fuel → 0 < (amortStep pay e r)^[j] b) →
      amortFinal pay e r fuel b = (amortStep pay e r)^[fuel] b
  | 0, b, _ => rfl
  | fuel + 1, b, hpos => by
    rw [amortFinal_succ]
    by_cases hb : b - (pay + e - b * r) ≤ 0
    · cases fuel with
      | zero =>
        rw [if_pos hb, zero_add, Function.iterate_one]
        simp [amortStep]
      | succ fuel' =>
        exfalso
        have h1 := hpos 1 le_rfl (by omega)
        rw [Function.iterate_one] at h1
        simp only [amortStep] at h1
        linarith
    · rw [if_neg hb]
      have ih := amortFinal_of_pos pay e r fuel (b - (pay + e - b * r))
        (fun j hj hjf => by
          have hj1 := hpos (j + 1) (by omega) (by omega)
          rw [Function.iterate_succ_apply] at hj1
          simpa [amortStep] using hj1)
      rw [Function.iterate_succ_apply]
      simpa [amortStep] using ih

lemma amortSched_last (pay e r : ℚ) :
    ∀ (fuel : ℕ) (b : ℚ) (m : ℕ),
      ∃ pre row, amortSched pay e r (fuel + 1) b m = pre ++ [row] ∧
        row.balance = max (amortFinal pay e r (fuel + 1) b) 0
  | 0, b, m => by
    rw [amortSched_succ, amortFinal_succ]
    by_cases hb : b - (pay + e - b * r) ≤ 0
    · rw [if_pos hb, if_pos hb]
      exact ⟨[], ⟨m, pay + e - b * r, b * r, max (b - (pay + e - b * r)) 0⟩, by simp, rfl⟩
    · rw [if_neg hb, if_neg hb]
      exact ⟨[], ⟨m, pay + e - b * r, b * r, max (b - (pay + e - b * r)) 0⟩, by simp [amortSched], rfl⟩
  | fuel + 1, b, m => by
    rw [amortSched_succ, amortFinal_succ]
    by_cases hb : b - (pay + e - b * r) ≤ 0
    · rw [if_pos hb, if_pos hb]
      exact ⟨[], ⟨m, pay + e - b * r, b * r, max (b - (pay + e - b * r)) 0⟩, by simp, rfl⟩
    · rw [if_neg hb, if_neg hb]
      obtain ⟨pre, row, hsched, hbal⟩ :=
        amortSched_last pay e r fuel (b - (pay + e - b * r)) (m + 1)
      exact ⟨⟨m, pay + e - b * r, b * r, max (b - (pay + e - b * r)) 0⟩ :: pre, row,
        by rw [hsched]; simp, hbal⟩

lemma amortStep_le (pay r : ℚ) {e b₁ b₂ : ℚ} (he : 0 ≤ e) (hr : 0 ≤ 1 + r)
    (hb : b₁ ≤ b₂) : amortStep pay e r b₁ ≤ amortStep pay 0 r b₂ := by
  unfold amortStep
  have h := mul_le_mul_of_nonneg_right hb hr
  nlinarith [h]

lemma amortStep_iterate_le (pay r : ℚ) {e : ℚ} (he : 0 ≤ e) (hr : 0 ≤ 1 + r) :
    ∀ (n : ℕ) {b₁ b₂ : ℚ}, b₁ ≤ b₂ →
      (amortStep pay e r)^[n] b₁ ≤ (amortStep pay 0 r)^[n] b₂
  | 0, _, _, hb => hb
  | n + 1, b₁, b₂, hb => by
    rw [Function.iterate_succ_apply, Function.iterate_succ_apply]
    exact amortStep_iterate_le pay r he hr n (amortStep_le pay r he hr hb)

lemma annuity_pay_eq (P r : ℚ) (n : ℕ) (hr : 0 < r) (hn : 1 ≤ n) :
    P * r / (1 - (1 + r) ^ (-(n : ℤ))) =
      P * r * (1 + r) ^ n / ((1 + r) ^ n - 1) := by
  have h1r : (0 : ℚ) < 1 + r := by linarith
  have hx : (1 + r) ^ n ≠ 0 := pow_ne_zero _ (ne_of_gt h1r)
  have hx1 : 1 < (1 + r) ^ n := one_lt_pow₀ (by linarith) (by omega)
  have hden : 1 - ((1 + r) ^ n)⁻¹ ≠ 0 := by
    have : ((1 + r) ^ n)⁻¹ < 1 := inv_lt_one_of_one_lt₀ hx1
    linarith
  rw [zpow_neg, zpow_natCast]
  rw [div_eq_div_iff hden (by linarith : (1 + r) ^ n - 1 ≠ 0)]
  field_simp
  ring

lemma amortIter_closed (P r : ℚ) (n : ℕ) (hr : 0 < r) (hn : 1 ≤ n) :
    ∀ j : ℕ,
      (amortStep (P * r * (1 + r) ^ n / ((1 + r) ^ n - 1)) 0 r)^[j] P =
        P * ((1 + r) ^ n - (1 + r) ^ j) / ((1 + r) ^ n - 1)
  | 0 => by
    have hx1 : 1 < (1 + r) ^ n := one_lt_pow₀ (by linarith) (by omega)
    have hden : (1 + r) ^ n - 1 ≠ 0 := by linarith
    rw [Function.iterate_zero_apply, pow_zero]
    field_simp
  | j + 1 => by
    have hx1 : 1 < (1 + r) ^ n := one_lt_pow₀ (by linarith) (by omega)
    have hden : (1 + r) ^ n - 1 ≠ 0 := by linarith
    rw [Function.iterate_succ_apply', amortIter_closed P r n hr hn j]
    unfold amortStep
    rw [pow_succ]
    field_simp
    ring

lemma amortIter_pos (P r : ℚ) (n : ℕ) (hP : 0 < P) (hr : 0 < r) (hn : 1 ≤ n) :
    ∀ j, j < n →
      0 < (amortStep (P * r * (1 + r) ^ n / ((1 + r) ^ n - 1)) 0 r)^[j] P := by
  intro j hj
  have hx1 : 1 < (1 + r) ^ n := one_lt_pow₀ (by linarith) (by omega)
  have hyx : (1 + r) ^ j < (1 + r) ^ n := pow_lt_pow_right₀ (by linarith) hj
  rw [amortIter_closed P r n hr hn j]
  apply div_pos
  · nlinarith
  · linarith

lemma amortIter_zero (P r : ℚ) (n : ℕ) (hr : 0 < r) (hn : 1 ≤ n) :
    (amortStep (P * r * (1 + r) ^ n / ((1 + r) ^ n - 1)) 0 r)^[n] P = 0 := by
  rw [amortIter_closed P r n hr hn n]
  simp

lemma loanTotalPayments_pos (input : LoanAmortizationInput)
    (h : 0 < input.loanTerm) : 1 ≤ loanTotalPayments input := by
  rcases input with ⟨P, a, L, e, ty⟩
  cases ty <;> simp [loanTotalPayments] at h ⊢ <;> omega

lemma loanMonthlyRate_pos (input : LoanAmortizationInput)
    (h : 0 < input.annualInterestRate) : 0 < loanMonthlyRate input := by
  unfold loanMonthlyRate
  positivity

/-- C1 (amended): for every loan-amortization input with positive principal,
positive annual interest rate, positive term and non-negative extra payment,
the sum of the pre-rounding `principalPayment` values of the schedule equals
the principal minus the raw final balance of the period loop; with
`extraPayment = 0` that raw final balance is exactly 0, so the sum equals
the original principal exactly; and in every case the final schedule row
reports a remaining balance of exactly 0 (negative raw balances are clamped
by `max`).  (With `extraPayment > 0` the final period can overshoot, so the
sum of principal payments can exceed the principal by more than rounding:
the original claim fails there, see the counterexample.) -/
theorem calculateLoanAmortization_principal_sum (input : LoanAmortizationInput)
    (hP : 0 < input.principal) (hrate : 0 < input.annualInterestRate)
    (hterm : 0 < input.loanTerm) (he : 0 ≤ input.extraPayment) :
    (sumPrincipalPayments (calculateLoanAmortization input) =
      input.principal -
        amortFinal (baseMonthlyPayment input) input.extraPayment
          (loanMonthlyRate input) (loanTotalPayments input) input.principal) ∧
    (input.extraPayment = 0 →
      sumPrincipalPayments (calculateLoanAmortization input) = input.principal) ∧
    (∃ pre row, calculateLoanAmortization input = pre ++ [row] ∧
      row.balance = 0) := by
  have hr : 0 < loanMonthlyRate input := loanMonthlyRate_pos input hrate
  have hn : 1 ≤ loanTotalPayments input := loanTotalPayments_pos input hterm
  have hpay : baseMonthlyPayment input =
      input.principal * loanMonthlyRate input * (1 + loanMonthlyRate input) ^
          loanTotalPayments input /
        ((1 + loanMonthlyRate input) ^ loanTotalPayments input - 1) := by
    unfold baseMonthlyPayment
    exact annuity_pay_eq _ _ _ hr hn
  have hiter0 :
      (amortStep (baseMonthlyPayment input) 0 (loanMonthlyRate input))^[loanTotalPayments input]
        input.principal = 0 := by
    rw [hpay]
    exact amortIter_zero _ _ _ hr hn
  refine ⟨amortSched_sum _ _ _ _ _ _, ?_, ?_⟩
  · intro h0
    rw [calculateLoanAmortization, amortSched_sum, h0]
    have hfin :
        amortFinal (baseMonthlyPayment input) 0 (loanMonthlyRate input)
          (loanTotalPayments input) input.principal = 0 := by
      rw [amortFinal_of_pos _ _ _ _ _ (fun j hj hjn => by
        rw [hpay]
        exact amortIter_pos _ _ _ hP hr hn j hjn)]
      exact hiter0
    rw [hfin, sub_zero]
  · obtain ⟨fuel, hfuel⟩ : ∃ fuel, loanTotalPayments input = fuel + 1 :=
      ⟨loanTotalPayments input - 1, by omega⟩
    obtain ⟨pre, row, hsched, hbal⟩ :=
      amortSched_last (baseMonthlyPayment input) input.extraPayment
        (loanMonthlyRate input) fuel input.principal 1
    refine ⟨pre, row, ?_, ?_⟩
    · rw [calculateLoanAmortization, hfuel]
      exact hsched
    · rw [hbal]
      have hle :
          amortFinal (baseMonthlyPayment input) input.extraPayment
            (loanMonthlyRate input) (fuel + 1) input.principal ≤ 0 := by
        rcases amortFinal_cases (baseMonthlyPayment input) input.extraPayment
            (loanMonthlyRate input) (fuel + 1) input.principal with h | h
        · exact h
        · rw [h]
          calc (amortStep (baseMonthlyPayment input) input.extraPayment
                  (loanMonthlyRate input))^[fuel + 1] input.principal
              ≤ (amortStep (baseMonthlyPayment input) 0
                  (loanMonthlyRate input))^[fuel + 1] input.principal :=
                amortStep_iterate_le _ _ he (by linarith) _ le_rfl
            _ = 0 := by rw [← hfuel]; exact hiter0
      exact max_eq_right hle

/-- Witness for C1 at a concrete input: a 1000 loan at 120% annual interest
(monthly rate 1/10) over 2 months with no extra payment; the principal
payments sum to exactly 1000. -/
theorem calculateLoanAmortization_principal_sum_witness :
    sumPrincipalPayments (calculateLoanAmortization ⟨1000, 120, 2, 0, .months⟩) = 1000 :=
  (calculateLoanAmortization_principal_sum ⟨1000, 120, 2, 0, .months⟩
    (by norm_num) (by norm_num) (by norm_num) (by norm_num)).2.1 rfl

lemma loanEx2_rate : loanMonthlyRate ⟨1000, 120, 2, 500, .months⟩ = 1 / 10 := by
  norm_num [loanMonthlyRate]

lemma loanEx2_pay : baseMonthlyPayment ⟨1000, 120, 2, 500, .months⟩ = 12100 / 21 := by
  rw [baseMonthlyPayment, loanEx2_rate]
  show (1000 : ℚ) * (1 / 10) / (1 - (1 + 1 / 10) ^ (-(2 : ℕ) : ℤ)) = 12100 / 21
  rw [zpow_neg, zpow_natCast]
  norm_num

/-- Counterexample to C1 as stated: with `extraPayment = 500` on a 1000 loan
at 120% annual interest over a 2-month term, the final period overshoots and
the pre-rounding principal payments sum to 2050, not the principal 1000
(a discrepancy far beyond rounding). -/
theorem calculateLoanAmortization_sum_counterexample :
    sumPrincipalPayments (calculateLoanAmortization ⟨1000, 120, 2, 500, .months⟩) = 2050 ∧
    (2050 : ℚ) ≠ 1000 := by
  constructor
  · rw [calculateLoanAmortization, loanEx2_pay, loanEx2_rate]
    show sumPrincipalPayments
      (amortSched (12100 / 21) 500 (1 / 10) (1 + 1) 1000 1) = 2050
    rw [amortSched_succ, if_neg (by norm_num), amortSched_succ,
      if_pos (by norm_num)]
    simp only [sumPrincipalPayments, List.map_cons, List.map_nil,
      List.sum_cons, List.sum_nil]
    norm_num
  · norm_num

lemma loanEx3_rate : loanMonthlyRate ⟨1000, 120, 3, 500, .months⟩ = 1 / 10 := by
  norm_num [loanMonthlyRate]

lemma loanEx3_pay : baseMonthlyPayment ⟨1000, 120, 3, 500, .months⟩ = 133100 / 331 := by
  rw [baseMonthlyPayment, loanEx3_rate]
  show (1000 : ℚ) * (1 / 10) / (1 - (1 + 1 / 10) ^ (-(3 : ℕ) : ℤ)) = 133100 / 331
  rw [zpow_neg, zpow_natCast]
  norm_num

lemma loanEx3_length :
    (calculateLoanAmortization ⟨1000, 120, 3, 500, .months⟩).length = 2 := by
  rw [calculateLoanAmortization, loanEx3_pay, loanEx3_rate]
  show (amortSched (133100 / 331) 500 (1 / 10) (2 + 1) 1000 1).length = 2
  rw [amortSched_succ, if_neg (by norm_num), amortSched_succ,
    if_pos (by norm_num)]
  rfl

/-- C6: the period loop of `calculateLoanAmortization` emits at most
`totalPayments` rows; a row is followed by another row only if the raw
running balance after its period is still positive (so the loop stops at
the first period whose balance is `≤ 0`); and on a concrete input with
`extraPayment = 500 > 0` the schedule is shorter than the nominal term. -/
theorem calculateLoanAmortization_stops_at_payoff (input : LoanAmortizationInput) :
    ((calculateLoanAmortization input).length ≤ loanTotalPayments input) ∧
    (∀ k, k + 1 < (calculateLoanAmortization input).length →
      0 < (amortStep (baseMonthlyPayment input) input.extraPayment
            (loanMonthlyRate input))^[k + 1] input.principal) ∧
    ((calculateLoanAmortization ⟨1000, 120, 3, 500, .months⟩).length <
      loanTotalPayments ⟨1000, 120, 3, 500, .months⟩) := by
  refine ⟨amortSched_length _ _ _ _ _ _,
    fun k hk => amortSched_pos _ _ _ _ _ _ k hk, ?_⟩
  rw [loanEx3_length]
  show 2 < 3
  norm_num

/-- Witness for C6 at a concrete input: the schedule of the example input has
2 rows, so the raw balance after the first period is still positive. -/
theorem calculateLoanAmortization_stops_witness :
    0 < (amortStep (baseMonthlyPayment ⟨1000, 120, 3, 500, .months⟩) 500
          (loanMonthlyRate ⟨1000, 120, 3, 500, .months⟩))^[0 + 1] 1000 :=
  (calculateLoanAmortization_stops_at_payoff ⟨1000, 120, 3, 500, .months⟩).2.1 0
    (by rw [loanEx3_length]; norm_num)

/-! ### JavaScript number semantics for the RSI computation -/

/-- Subset of IEEE-754 double values needed to model the unguarded divisions
in `calculateRSI`: finite values (as exact rationals), the two infinities,
and NaN.  Signed zero is not distinguished (never relevant here: the
denominators are sums of absolute values, hence non-negative). -/
inductive JsNum where
  | nan : JsNum
  | inf : JsNum
  | ninf : JsNum
  | num : ℚ → JsNum
deriving DecidableEq

namespace JsNum

/-- IEEE addition on the modelled values. -/
def add : JsNum → JsNum → JsNum
  | nan, _ => nan
  | _, nan => nan
  | inf, ninf => nan
  | ninf, inf => nan
  | inf, _ => inf
  | _, inf => inf
  | ninf, _ => ninf
  | _, ninf => ninf
  | num a, num b => num (a + b)

/-- IEEE subtraction on the modelled values. -/
def sub : JsNum → JsNum → JsNum
  | nan, _ => nan
  | _, nan => nan
  | inf, inf => nan
  | ninf, ninf => nan
  | inf, _ => inf
  | ninf, _ => ninf
  | _, inf => ninf
  | _, ninf => inf
  | num a, num b => num (a - b)

/-- IEEE division on the modelled values (`x/0` is `±∞` for `x ≠ 0` and
NaN for `x = 0`; finite divided by infinite is `0`). -/
def div : JsNum → JsNum → JsNum
  | nan, _ => nan
  | _, nan => nan
  | inf, inf => nan
  | inf, ninf => nan
  | ninf, inf => nan
  | ninf, ninf => nan
  | inf, num b => if b < 0 then ninf else inf
  | ninf, num b => if b < 0 then inf else ninf
  | num _, inf => num 0
  | num _, ninf => num 0
  | num a, num b =>
    if b = 0 then (if a = 0 then nan else if a < 0 then ninf else inf)
    else num (a / b)

/-- The JavaScript comparison `x <= y` (false whenever NaN is involved). -/
def leb : JsNum → JsNum → Bool
  | nan, _ => false
  | _, nan => false
  | inf, inf => true
  | inf, _ => false
  | ninf, _ => true
  | num _, inf => true
  | num _, ninf => false
  | num a, num b => a ≤ b

/-- The JavaScript comparison `x < y` (false whenever NaN is involved). -/
def ltb : JsNum → JsNum → Bool
  | nan, _ => false
  | _, nan => false
  | inf, _ => false
  | ninf, ninf => false
  | ninf, _ => true
  | num _, inf => true
  | num _, ninf => false
  | num a, num b => a < b

end JsNum

/-! ### Stock analyzer RSI (`calculateRSI`, `analyzeStock`) -/

/-- The consecutive deltas `prices[i] - prices[i-1]` for `i = 1 ..`,
as computed by the loop in `calculateRSI`. -/
def priceChanges (prices : List ℚ) : List ℚ :=
  List.zipWith (fun next prev => next - prev) prices.tail prices

/-- The `gains` array of `calculateRSI`: the strictly positive changes. -/
def rsiGains (prices : List ℚ) : List ℚ :=
  (priceChanges prices).filter (fun c => 0 < c)

/-- The `losses` array of `calculateRSI`: absolute values of the changes
that are not strictly positive (the single loop pushing into two arrays is
modelled by two filters). -/
def rsiLosses (prices : List ℚ) : List ℚ :=
  ((priceChanges prices).filter (fun c => ¬ 0 < c)).map (fun c => |c|)

/-- Transcription of `CalculatorService.calculateRSI`: the average gain and
average loss each divide by the constant 14 (not by the array length);
`rs = avgGain / avgLoss` and `RSI = 100 - 100/(1 + rs)` are evaluated with
JavaScript IEEE semantics, with no guard on the divisions. -/
def calculateRSI (prices : List ℚ) : JsNum :=
  let avgGain := (rsiGains prices).sum / 14
  let avgLoss := (rsiLosses prices).sum / 14
  let rs := JsNum.div (.num avgGain) (.num avgLoss)
  JsNum.sub (.num 100) (JsNum.div (.num 100) (JsNum.add (.num 1) rs))

/-- The RSI used by `analyzeStock`: `calculateRSI(weeklyPrices.slice(0, 14))`,
i.e. applied to the most recent 14 weekly prices (the weekly series is
ordered most-recent-first). -/
def analyzeStockRSI (weeklyPrices : List ℚ) : JsNum :=
  calculateRSI (weeklyPrices.take 14)

/-- The trend classification chain of `analyzeStock` (JavaScript comparisons
on the possibly-NaN RSI value). -/
def stockTrend (rsi : JsNum) : String :=
  if rsi.leb (.num 30) then "Bearish"
  else if (JsNum.num 70).leb rsi then "Bullish"
  else if rsi.ltb (.num 50) then "Downtrend"
  else "Uptrend"

/-- The trend reported by `analyzeStock` as a function of the weekly price
series. -/
def analyzeStockTrend (weeklyPrices : List ℚ) : String :=
  stockTrend (analyzeStockRSI weeklyPrices)

/-- Modelled from the spec claim wording for C3: an RSI computed from the
most recent 14 price deltas of the weekly series, i.e. from the most recent
15 prices, with the same fixed divisor 14 and the same formula. -/
def rsiFromMostRecent14Deltas (weeklyPrices : List ℚ) : JsNum :=
  calculateRSI (weeklyPrices.take 15)

lemma rsiGains_sum_nonneg (prices : List ℚ) : 0 ≤ (rsiGains prices).sum := by
  apply List.sum_nonneg
  intro x hx
  have := List.of_mem_filter hx
  have hx' : 0 < x := by simpa using this
  exact hx'.le

lemma rsiLosses_sum_nonneg (prices : List ℚ) : 0 ≤ (rsiLosses prices).sum := by
  apply List.sum_nonneg
  intro x hx
  obtain ⟨c, _, rfl⟩ := List.mem_map.mp hx
  exact abs_nonneg c

/-- When the loss average is non-zero, every division in `calculateRSI` is
finite and the plain arithmetic formula applies. -/
lemma calculateRSI_finite (prices : List ℚ)
    (hl : (rsiLosses prices).sum ≠ 0) :
    calculateRSI prices =
      .num (100 - 100 / (1 + ((rsiGains prices).sum / 14) /
        ((rsiLosses prices).sum / 14))) := by
  have hg0 : 0 ≤ (rsiGains prices).sum := rsiGains_sum_nonneg prices
  have hl0 : 0 ≤ (rsiLosses prices).sum := rsiLosses_sum_nonneg prices
  have hl14 : (rsiLosses prices).sum / 14 ≠ 0 := by
    intro h
    exact hl (by linarith [(div_eq_zero_iff.mp h).resolve_right (by norm_num)])
  have hrs : 0 ≤ ((rsiGains prices).sum / 14) / ((rsiLosses prices).sum / 14) := by
    apply div_nonneg <;> positivity
  have hone : (1 : ℚ) + ((rsiGains prices).sum / 14) / ((rsiLosses prices).sum / 14) ≠ 0 := by
    linarith
  unfold calculateRSI
  simp only [JsNum.div, JsNum.add, JsNum.sub, if_neg hl14, if_neg hone]

/-- When every price delta is zero (constant window), both averages are 0
and `calculateRSI` returns NaN (`0/0`). -/
lemma calculateRSI_all_zero (prices : List ℚ)
    (h : ∀ c ∈ priceChanges prices, c = 0) : calculateRSI prices = .nan := by
  have hg : (rsiGains prices).sum = 0 := by
    apply List.sum_eq_zero
    intro x hx
    exact h x (List.mem_of_mem_filter hx)
  have hl : (rsiLosses prices).sum = 0 := by
    apply List.sum_eq_zero
    intro x hx
    obtain ⟨c, hc, rfl⟩ := List.mem_map.mp hx
    rw [h c (List.mem_of_mem_filter hc), abs_zero]
  unfold calculateRSI
  rw [hg, hl]
  simp [JsNum.div, JsNum.add, JsNum.sub]

/-- When the window has a gain and no losses, `avgGain/0 = +∞` and the RSI
collapses to exactly 100. -/
lemma calculateRSI_no_losses (prices : List ℚ)
    (hne : priceChanges prices ≠ [])
    (hpos : ∀ c ∈ priceChanges prices, 0 < c) : calculateRSI prices = .num 100 := by
  have hg : (priceChanges prices).filter (fun c => 0 < c) = priceChanges prices :=
    List.filter_eq_self.mpr (fun c hc => by simpa using hpos c hc)
  have hgsum : 0 < (rsiGains prices).sum := by
    rw [rsiGains, hg]
    exact List.sum_pos _ hpos hne
  have hlnil : (priceChanges prices).filter (fun c => ¬ 0 < c) = [] :=
    List.filter_eq_nil_iff.mpr (fun c hc => by simpa using hpos c hc)
  have hl : (rsiLosses prices).sum = 0 := by
    rw [rsiLosses, hlnil]
    rfl
  have hg14 : (rsiGains prices).sum / 14 ≠ 0 := by positivity
  have hg14' : ¬ (rsiGains prices).sum / 14 < 0 := not_lt.mpr (by positivity)
  unfold calculateRSI
  rw [hl]
  simp only [zero_div, JsNum.div, if_pos rfl, if_neg hg14, if_neg hg14',
    JsNum.add, JsNum.sub]
  norm_num

/-- C9: `calculateRSI` is not total over numeric windows: a window whose
deltas are all zero yields NaN (unguarded `0/0`), and a window with gains
and no losses yields exactly 100 through a division by zero. -/
theorem calculateRSI_unguarded (prices : List ℚ) :
    ((∀ c ∈ priceChanges prices, c = 0) → calculateRSI prices = JsNum.nan) ∧
    ((priceChanges prices ≠ [] ∧ ∀ c ∈ priceChanges prices, 0 < c) →
      calculateRSI prices = JsNum.num 100) :=
  ⟨calculateRSI_all_zero prices, fun h => calculateRSI_no_losses prices h.1 h.2⟩

/-- Witness for C9 at concrete inputs: a constant window produces NaN and a
strictly increasing window produces exactly 100. -/
theorem calculateRSI_unguarded_witness :
    calculateRSI [5, 5, 5] = JsNum.nan ∧ calculateRSI [1, 2, 3] = JsNum.num 100 :=
  ⟨(calculateRSI_unguarded [5, 5, 5]).1 (by norm_num [priceChanges]),
   (calculateRSI_unguarded [1, 2, 3]).2
     ⟨by simp [priceChanges], by norm_num [priceChanges]⟩⟩

lemma stockTrend_num (q : ℚ) :
    (stockTrend (.num q) = "Bearish" ↔ q ≤ 30) ∧
    (stockTrend (.num q) = "Bullish" ↔ 70 ≤ q) ∧
    (stockTrend (.num q) = "Downtrend" ↔ 30 < q ∧ q < 50) ∧
    (stockTrend (.num q) = "Uptrend" ↔ 50 ≤ q ∧ q < 70) := by
  unfold stockTrend
  rcases le_or_lt q 30 with h30 | h30
  · rw [if_pos (by simp [JsNum.leb, h30])]
    refine ⟨by simp [h30], ?_, ?_, ?_⟩
    · exact ⟨fun hcon => absurd hcon (by decide), fun h70 => by linarith⟩
    · exact ⟨fun hcon => absurd hcon (by decide), fun h => by linarith [h.1]⟩
    · exact ⟨fun hcon => absurd hcon (by decide), fun h => by linarith [h.1]⟩
  · rw [if_neg (by simp [JsNum.leb]; linarith)]
    rcases le_or_lt 70 q with h70 | h70
    · rw [if_pos (by simp [JsNum.leb, h70])]
      refine ⟨?_, by simp [h70], ?_, ?_⟩
      · exact ⟨fun hcon => absurd hcon (by decide), fun h => by linarith⟩
      · exact ⟨fun hcon => absurd hcon (by decide), fun h => by linarith [h.2]⟩
      · exact ⟨fun hcon => absurd hcon (by decide), fun h => by linarith [h.2]⟩
    · rw [if_neg (by simp [JsNum.leb]; linarith)]
      rcases lt_or_le q 50 with h50 | h50
      · rw [if_pos (by simp [JsNum.ltb, h50])]
        refine ⟨?_, ?_, by simp [h30, h50], ?_⟩
        · exact ⟨fun hcon => absurd hcon (by decide), fun h => by linarith⟩
        · exact ⟨fun hcon => absurd hcon (by decide), fun h => by linarith⟩
        · exact ⟨fun hcon => absurd hcon (by decide), fun h => by linarith [h.1]⟩
      · rw [if_neg (by simp [JsNum.ltb]; linarith)]
        refine ⟨?_, ?_, ?_, by simp [h50, h70]⟩
        · exact ⟨fun hcon => absurd hcon (by decide), fun h => by linarith⟩
        · exact ⟨fun hcon => absurd hcon (by decide), fun h => by linarith⟩
        · exact ⟨fun hcon => absurd hcon (by decide), fun h => by linarith [h.2]⟩

/-- C3 (amended): the RSI used by `analyzeStock` is computed from the most
recent 14 weekly prices — hence from their 13 consecutive deltas, not from
14 deltas — with the average gain and average loss both divided by the
fixed constant 14; when the loss average is non-zero the RSI is the number
`100 - 100/(1 + avgGain/avgLoss)`; and the resulting trend label is Bearish
iff RSI ≤ 30, Bullish iff RSI ≥ 70, Downtrend iff 30 < RSI < 50, and
Uptrend iff 50 ≤ RSI < 70. -/
theorem analyzeStock_rsi_spec (weekly : List ℚ) (h14 : 14 ≤ weekly.length) :
    (priceChanges (weekly.take 14)).length = 13 ∧
    (∀ w₂ : List ℚ, weekly.take 14 = w₂.take 14 →
      analyzeStockRSI weekly = analyzeStockRSI w₂) ∧
    ((rsiLosses (weekly.take 14)).sum ≠ 0 →
      analyzeStockRSI weekly =
        .num (100 - 100 / (1 + ((rsiGains (weekly.take 14)).sum / 14) /
          ((rsiLosses (weekly.take 14)).sum / 14)))) ∧
    (∀ q : ℚ, analyzeStockRSI weekly = .num q →
      (analyzeStockTrend weekly = "Bearish" ↔ q ≤ 30) ∧
      (analyzeStockTrend weekly = "Bullish" ↔ 70 ≤ q) ∧
      (analyzeStockTrend weekly = "Downtrend" ↔ 30 < q ∧ q < 50) ∧
      (analyzeStockTrend weekly = "Uptrend" ↔ 50 ≤ q ∧ q < 70)) := by
  refine ⟨?_, ?_, ?_, ?_⟩
  · simp only [priceChanges, List.length_zipWith, List.length_tail,
      List.length_take]
    omega
  · intro w₂ hw
    unfold analyzeStockRSI
    rw [hw]
  · intro hl
    exact calculateRSI_finite _ hl
  · intro q hq
    unfold analyzeStockTrend
    rw [hq]
    exact stockTrend_num q

/-- The weekly price series (most-recent-first) of the C3 counterexample:
the most recent 14 prices are constant, the 15th differs. -/
def rsiExampleSeries : List ℚ :=
  [100, 100, 100, 100, 100, 100, 100, 100, 100, 100, 100, 100, 100, 100, 50]

/-- Counterexample to C3 as stated: `analyzeStock` passes the most recent
14 prices — 13 deltas — to `calculateRSI`, not the most recent 14 deltas.
On this series the code's RSI is NaN (the 14-price window is constant),
while the RSI built from the most recent 14 deltas (15 prices) is the
number 0; the two computations disagree. -/
theorem analyzeStockRSI_counterexample :
    analyzeStockRSI rsiExampleSeries = JsNum.nan ∧
    rsiFromMostRecent14Deltas rsiExampleSeries = JsNum.num 0 ∧
    analyzeStockRSI rsiExampleSeries ≠ rsiFromMostRecent14Deltas rsiExampleSeries := by
  have h1 : analyzeStockRSI rsiExampleSeries = JsNum.nan := by
    apply calculateRSI_all_zero
    intro c hc
    simp [rsiExampleSeries, priceChanges] at hc
    norm_num [hc]
  have hl : (rsiLosses (rsiExampleSeries.take 15)).sum = 50 := by
    norm_num [rsiLosses, rsiExampleSeries, priceChanges, List.filter]
  have hg : (rsiGains (rsiExampleSeries.take 15)).sum = 0 := by
    norm_num [rsiGains, rsiExampleSeries, priceChanges, List.filter]
  have h2 : rsiFromMostRecent14Deltas rsiExampleSeries = JsNum.num 0 := by
    rw [rsiFromMostRecent14Deltas, calculateRSI_finite _ (by rw [hl]; norm_num),
      hl, hg]
    norm_num
  exact ⟨h1, h2, by rw [h1, h2]; simp⟩

/-- The 14-price weekly series used by the C3 witness. -/
def rsiWitnessSeries : List ℚ :=
  [100, 99, 100, 100, 100, 100, 100, 100, 100, 100, 100, 100, 100, 100]

/-- Witness for C3 at a concrete series of 14 weekly prices: the RSI window
holds exactly 13 deltas. -/
theorem analyzeStock_rsi_spec_witness :
    (priceChanges (rsiWitnessSeries.take 14)).length = 13 :=
  (analyzeStock_rsi_spec rsiWitnessSeries (by norm_num [rsiWitnessSeries])).1

/-! ### Portfolio optimizer (`simpleOptimization`) -/

/-- The recursive candidate enumeration `generateWeights` of
`simpleOptimization`: at each index before the last the weight is
`(i / steps) * remaining` for `i = 0 .. steps` (`steps = 20`), and the last
index receives everything remaining.  `fuel` is the number of indices
before the last one (`numAssets - 1`); `current` is the already-fixed
prefix (the source writes into an array, modelled by appending). -/
def genWeightsAux : ℕ → ℚ → List ℚ → List (List ℚ)
  | 0, remaining, current => [current ++ [remaining]]
  | fuel + 1, remaining, current =>
    (List.range 21).flatMap fun i =>
      genWeightsAux fuel (remaining - (i : ℚ) / 20 * remaining)
        (current ++ [(i : ℚ) / 20 * remaining])

/-- All candidate weight vectors enumerated by `generateWeights(0, 1, new
Array(numAssets).fill(0))`, in depth-first order. -/
def genWeights (numAssets : ℕ) : List (List ℚ) :=
  genWeightsAux (numAssets - 1) 1 []

/-- The `meanReturns` vector: the mean of each asset's monthly return series. -/
def meanReturns (returns : List (List ℚ)) : List ℚ :=
  returns.map (fun rs => rs.sum / rs.length)

/-- The `portfolioReturn` value: weighted sum of mean monthly returns, annualized
(× 12). -/
def portfolioReturn (weights : List ℚ) (returns : List (List ℚ)) : ℚ :=
  (List.zipWith (fun m w => m * w) (meanReturns returns) weights).sum * 12

/-- The `calculateCovarianceMatrix` output: sample covariances with denominator
`returns[i].length - 1` (the subtraction is on JavaScript numbers, so it is
modelled on `ℚ`, not truncated). -/
def covarianceMatrix (returns : List (List ℚ)) : List (List ℚ) :=
  let rm := returns.zip (meanReturns returns)
  rm.map fun p =>
    rm.map fun q =>
      (List.zipWith (fun a b => (a - p.2) * (b - q.2)) p.1 q.1).sum /
        ((p.1.length : ℚ) - 1)

/-- The double loop of `portfolioVolatility`:
`Σᵢ Σⱼ weights[i] * cov[i][j] * weights[j]`. -/
def portfolioVariance (weights : List ℚ) (returns : List (List ℚ)) : ℚ :=
  (List.zipWith (fun wi row =>
      wi * (List.zipWith (fun cij wj => cij * wj) row weights).sum)
    weights (covarianceMatrix returns)).sum

/-- The annualized `portfolioVolatility`: `sqrt(weightsᵀ·Cov·weights) * sqrt(12)`. -/
noncomputable def portfolioVolatility (weights : List ℚ)
    (returns : List (List ℚ)) : ℝ :=
  Real.sqrt (portfolioVariance weights returns) * Real.sqrt 12

open Classical in
/-- One step of the best-candidate scan of `simpleOptimization`: a candidate
whose return meets the target replaces the incumbent iff its volatility is
strictly smaller (`bestVolatility` starts at `Infinity`, modelled by
`none`, so the first qualifying candidate always wins). -/
noncomputable def simpleOptStep (returns : List (List ℚ)) (targetReturn : ℚ)
    (best : Option (List ℚ)) (w : List ℚ) : Option (List ℚ) :=
  if targetReturn ≤ portfolioReturn w returns then
    match best with
    | none => some w
    | some bw =>
      if portfolioVolatility w returns < portfolioVolatility bw returns then some w
      else some bw
  else best

/-- Transcription of `simpleOptimization`: the source interleaves the
enumeration and the best-candidate bookkeeping (the leaf of
`generateWeights` updates `bestWeights`); since the state is threaded in
depth-first order this equals a left fold of the scan step over the
enumerated candidates.  If no candidate qualifies, fall back to equal
weights `1 / numAssets`. -/
noncomputable def simpleOptimization (returns : List (List ℚ))
    (targetReturn : ℚ) (numAssets : ℕ) : List ℚ :=
  ((genWeights numAssets).foldl (simpleOptStep returns targetReturn) none).getD
    (List.replicate numAssets ((1 : ℚ) / numAssets))

/-- Membership of a rational in the 1/20 grid claimed by the spec. -/
def onGrid20 (x : ℚ) : Prop := ∃ k : Fin 21, x = (k : ℚ) / 20

lemma genWeightsAux_mem :
    ∀ (fuel : ℕ) (remaining : ℚ) (current : List ℚ) (w : List ℚ),
      w ∈ genWeightsAux fuel remaining current →
      w.length = current.length + fuel + 1 ∧ w.sum = current.sum + remaining
  | 0, remaining, current, w => by
    intro hw
    simp only [genWeightsAux, List.mem_singleton] at hw
    subst hw
    simp
  | fuel + 1, remaining, current, w => by
    intro hw
    simp only [genWeightsAux, List.mem_flatMap, List.mem_range] at hw
    obtain ⟨i, _, hwmem⟩ := hw
    obtain ⟨hlen, hsum⟩ := genWeightsAux_mem fuel _ _ w hwmem
    constructor
    · rw [hlen]
      simp only [List.length_append, List.length_singleton]
      omega
    · rw [hsum]
      simp only [List.sum_append, List.sum_singleton]
      ring

lemma simpleOpt_foldl_none (returns : List (List ℚ)) (targetReturn : ℚ) :
    ∀ (cs : List (List ℚ)),
      (∀ w ∈ cs, portfolioReturn w returns < targetReturn) →
      cs.foldl (simpleOptStep returns targetReturn) none = none
  | [], _ => rfl
  | c :: cs, h => by
    have hc : ¬ targetReturn ≤ portfolioReturn c returns :=
      not_le.mpr (h c (List.mem_cons_self c cs))
    rw [List.foldl_cons]
    rw [show simpleOptStep returns targetReturn none c = none by
      rw [simpleOptStep, if_neg hc]]
    exact simpleOpt_foldl_none returns targetReturn cs
      (fun w hw => h w (List.mem_cons_of_mem c hw))

lemma simpleOpt_foldl_some (returns : List (List ℚ)) (targetReturn : ℚ) :
    ∀ (cs : List (List ℚ)) (b : List ℚ),
      targetReturn ≤ portfolioReturn b returns →
      ∃ r, cs.foldl (simpleOptStep returns targetReturn) (some b) = some r ∧
        (r = b ∨ r ∈ cs) ∧ targetReturn ≤ portfolioReturn r returns ∧
        portfolioVolatility r returns ≤ portfolioVolatility b returns ∧
        ∀ w ∈ cs, targetReturn ≤ portfolioReturn w returns →
          portfolioVolatility r returns ≤ portfolioVolatility w returns
  | [], b, hb => ⟨b, rfl, Or.inl rfl, hb, le_rfl, by simp⟩
  | c :: cs, b, hb => by
    rw [List.foldl_cons]
    by_cases hc : targetReturn ≤ portfolioReturn c returns
    · by_cases hv : portfolioVolatility c returns < portfolioVolatility b returns
      · rw [show simpleOptStep returns targetReturn (some b) c = some c by
          rw [simpleOptStep, if_pos hc]; simp [hv]]
        obtain ⟨r, hfold, hmem, hq, hvle, hall⟩ :=
          simpleOpt_foldl_some returns targetReturn cs c hc
        refine ⟨r, hfold, ?_, hq, le_trans hvle hv.le, ?_⟩
        · rcases hmem with h | h
          · exact Or.inr (h ▸ List.mem_cons_self c cs)
          · exact Or.inr (List.mem_cons_of_mem c h)
        · intro w hw hqw
          rcases List.mem_cons.mp hw with h | h
          · exact h ▸ hvle
          · exact hall w h hqw
      · rw [show simpleOptStep returns targetReturn (some b) c = some b by
          rw [simpleOptStep, if_pos hc]; simp [hv]]
        obtain ⟨r, hfold, hmem, hq, hvle, hall⟩ :=
          simpleOpt_foldl_some returns targetReturn cs b hb
        refine ⟨r, hfold, ?_, hq, hvle, ?_⟩
        · rcases hmem with h | h
          · exact Or.inl h
          · exact Or.inr (List.mem_cons_of_mem c h)
        · intro w hw hqw
          rcases List.mem_cons.mp hw with h | h
          · exact h ▸ le_trans hvle (not_lt.mp hv)
          · exact hall w h hqw
    · rw [show simpleOptStep returns targetReturn (some b) c = some b by
        rw [simpleOptStep, if_neg hc]]
      obtain ⟨r, hfold, hmem, hq, hvle, hall⟩ :=
        simpleOpt_foldl_some returns targetReturn cs b hb
      refine ⟨r, hfold, ?_, hq, hvle, ?_⟩
      · rcases hmem with h | h
        · exact Or.inl h
        · exact Or.inr (List.mem_cons_of_mem c h)
      · intro w hw hqw
        rcases List.mem_cons.mp hw with h | h
        · exact absurd hqw (h ▸ hc)
        · exact hall w h hqw

lemma simpleOpt_foldl_found (returns : List (List ℚ)) (targetReturn : ℚ) :
    ∀ (cs : List (List ℚ)),
      (∃ w ∈ cs, targetReturn ≤ portfolioReturn w returns) →
      ∃ r, cs.foldl (simpleOptStep returns targetReturn) none = some r ∧
        r ∈ cs ∧ targetReturn ≤ portfolioReturn r returns ∧
        ∀ w ∈ cs, targetReturn ≤ portfolioReturn w returns →
          portfolioVolatility r returns ≤ portfolioVolatility w returns
  | [], h => absurd h (by simp)
  | c :: cs, h => by
    rw [List.foldl_cons]
    by_cases hc : targetReturn ≤ portfolioReturn c returns
    · rw [show simpleOptStep returns targetReturn none c = some c by
        rw [simpleOptStep, if_pos hc]]
      obtain ⟨r, hfold, hmem, hq, hvle, hall⟩ :=
        simpleOpt_foldl_some returns targetReturn cs c hc
      refine ⟨r, hfold, ?_, hq, ?_⟩
      · rcases hmem with h' | h'
        · exact h' ▸ List.mem_cons_self c cs
        · exact List.mem_cons_of_mem c h'
      · intro w hw hqw
        rcases List.mem_cons.mp hw with h' | h'
        · exact h' ▸ hvle
        · exact hall w h' hqw
    · rw [show simpleOptStep returns targetReturn none c = none by
        rw [simpleOptStep, if_neg hc]]
      obtain ⟨w, hw, hqw⟩ := h
      rcases List.mem_cons.mp hw with h' | h'
      · exact absurd hqw (h' ▸ hc)
      · obtain ⟨r, hfold, hmem, hq, hall⟩ :=
          simpleOpt_foldl_found returns targetReturn cs ⟨w, h', hqw⟩
        exact ⟨r, hfold, List.mem_cons_of_mem c hmem, hq,
          fun w2 hw2 hqw2 => by
            rcases List.mem_cons.mp hw2 with h2 | h2
            · exact absurd hqw2 (h2 ▸ hc)
            · exact hall w2 h2 hqw2⟩

lemma genWeights_two :
    genWeights 2 = (List.range 21).map (fun i => [(i : ℚ) / 20, 1 - (i : ℚ) / 20]) := by
  show genWeightsAux 1 1 [] = _
  simp only [genWeightsAux, mul_one, List.nil_append, List.singleton_append]
  exact (List.map_eq_flatMap _ _).symm

/-- Counterexample to C2 as stated: for 3 symbols the enumeration takes
`i/20` of the *remaining* mass at each level, so the candidate
`[1/20, 19/400, 361/400]` (from `i = 1`, then `i = 1` again) is searched,
and its second component `19/400` lies on no `k/20` grid point: the
candidates are not a 1/20 grid over the simplex. -/
theorem genWeights_grid_counterexample :
    [1 / 20, 19 / 400, 361 / 400] ∈ genWeights 3 ∧ ¬ onGrid20 (19 / 400) := by
  constructor
  · show _ ∈ genWeightsAux 2 1 []
    simp only [genWeightsAux]
    apply List.mem_flatMap.mpr
    refine ⟨1, by simp, ?_⟩
    apply List.mem_flatMap.mpr
    refine ⟨1, by simp, ?_⟩
    apply List.mem_singleton.mpr
    norm_num
  · rintro ⟨k, hk⟩
    fin_cases k <;> norm_num at hk

/-- C2 (amended): `simpleOptimization` searches the recursively enumerated
candidate vectors, where each level before the last assigns `i/20` of the
mass still remaining (for 2 symbols this is exactly the 1/20 grid
`[i/20, 1 - i/20]`, but for 3 or more symbols the candidates are not
confined to the 1/20 grid — see the counterexample); every candidate sums
to 1; among the candidates whose annualized return (mean monthly return
× 12) meets the target, the one of minimal volatility is returned; and
whenever no candidate meets the target the equal-weight allocation
`1/numAssets` is returned — `[0.5, 0.5]` for 2 symbols. -/
theorem simpleOptimization_spec (returns : List (List ℚ)) (targetReturn : ℚ)
    (numAssets : ℕ) :
    (1 ≤ numAssets → ∀ w ∈ genWeights numAssets,
      w.length = numAssets ∧ w.sum = 1) ∧
    (genWeights 2 =
      (List.range 21).map (fun i => [(i : ℚ) / 20, 1 - (i : ℚ) / 20])) ∧
    ((∃ w ∈ genWeights numAssets, targetReturn ≤ portfolioReturn w returns) →
      simpleOptimization returns targetReturn numAssets ∈ genWeights numAssets ∧
      targetReturn ≤
        portfolioReturn (simpleOptimization returns targetReturn numAssets) returns ∧
      ∀ w2 ∈ genWeights numAssets, targetReturn ≤ portfolioReturn w2 returns →
        portfolioVolatility (simpleOptimization returns targetReturn numAssets)
            returns ≤
          portfolioVolatility w2 returns) ∧
    ((∀ w ∈ genWeights numAssets, portfolioReturn w returns < targetReturn) →
      simpleOptimization returns targetReturn numAssets =
        List.replicate numAssets ((1 : ℚ) / numAssets)) ∧
    ((∀ w ∈ genWeights 2, portfolioReturn w returns < targetReturn) →
      simpleOptimization returns targetReturn 2 = [1 / 2, 1 / 2]) := by
  refine ⟨?_, genWeights_two, ?_, ?_, ?_⟩
  · intro hn w hw
    obtain ⟨hlen, hsum⟩ := genWeightsAux_mem (numAssets - 1) 1 [] w hw
    constructor
    · simp only [List.length_nil] at hlen
      omega
    · simpa using hsum
  · intro hex
    obtain ⟨r, hfold, hmem, hq, hall⟩ :=
      simpleOpt_foldl_found returns targetReturn (genWeights numAssets) hex
    have hres : simpleOptimization returns targetReturn numAssets = r := by
      rw [simpleOptimization, hfold]
      rfl
    rw [hres]
    exact ⟨hmem, hq, hall⟩
  · intro hnone
    rw [simpleOptimization,
      simpleOpt_foldl_none returns targetReturn (genWeights numAssets) hnone]
    rfl
  · intro hnone
    rw [simpleOptimization,
      simpleOpt_foldl_none returns targetReturn (genWeights 2) hnone]
    show List.replicate 2 ((1 : ℚ) / (2 : ℕ)) = [1 / 2, 1 / 2]
    norm_num [List.replicate]

/-- Witness for C2 at a concrete input: two assets whose return series are
all zero can never meet a target return of 1, so the scan falls back to the
equal-weight allocation `[1/2, 1/2]`. -/
theorem simpleOptimization_spec_witness :
    simpleOptimization [[0, 0], [0, 0]] 1 2 = [1 / 2, 1 / 2] :=
  (simpleOptimization_spec [[0, 0], [0, 0]] 1 2).2.2.2.2
    (by
      intro w hw
      have h0 : portfolioReturn w [[0, 0], [0, 0]] = 0 := by
        rcases w with _ | ⟨a, _ | ⟨b, t⟩⟩ <;>
          norm_num [portfolioReturn, meanReturns]
      rw [h0]
      norm_num)

end SlayTheBear
